import Mathlib

/-!
Verification of the propagation-decision engine of the hierarchical-namespaces
repository (internal/selectors/selectors.go).

Go strings are embedded as `List Char` so that the string manipulation done by
the source (splitting, trimming, indexing) is fully inductive.  Go functions
that return `(value, error)` pairs are embedded as products with an
`Option Err` component; a Go runtime panic is modelled explicitly by the
`PanicOr` wrapper.
-/

set_option maxRecDepth 10000

/-- Go strings, embedded as lists of characters. -/
abbrev Str := List Char

/-- Characters trimmed by Go's strings.TrimSpace (ASCII whitespace). -/
def isSpaceChar (c : Char) : Bool :=
  c = ' ' || c = '\t' || c = '\n' || c = '\r' || c = Char.ofNat 11 || c = Char.ofNat 12

/-- Left half of strings.TrimSpace. -/
def trimLeft (s : Str) : Str := s.dropWhile isSpaceChar

/-- Right half of strings.TrimSpace. -/
def trimRight (s : Str) : Str := (s.reverse.dropWhile isSpaceChar).reverse

/-- Go's strings.TrimSpace. -/
def trimSpace (s : Str) : Str := trimRight (trimLeft s)

/-- Go's strings.Split with a one-character separator: `splitOnChar c ""` is
`[""]`, and in general there is one part per separator occurrence plus one. -/
def splitOnChar (sep : Char) : Str → List Str
  | [] => [[]]
  | c :: rest =>
    if c = sep then [] :: splitOnChar sep rest
    else
      match splitOnChar sep rest with
      | [] => [[c]]
      | h :: t => (c :: h) :: t

/-- Split a string at the first occurrence of `pat`, returning the text before
and after it, or `none` when `pat` does not occur. -/
def splitFirst (pat : Str) : Str → Option (Str × Str)
  | [] => none
  | c :: rest =>
    if pat.isPrefixOf (c :: rest) then some ([], (c :: rest).drop pat.length)
    else
      match splitFirst pat rest with
      | some (a, b) => some (c :: a, b)
      | none => none

/-- Lowercase alphanumeric characters, the class `[a-z0-9]` of the RFC 1123
label regular expression used by apimachinery's validation.IsDNS1123Label. -/
def lowerAlnumChars : Str := ("abcdefghijklmnopqrstuvwxyz0123456789".toList)

/-- The character class `[-a-z0-9]` of the RFC 1123 label regular expression. -/
def dnsLabelChars : Str := ("abcdefghijklmnopqrstuvwxyz0123456789-".toList)

/-- Matching the anchored regular expression `[a-z0-9]([-a-z0-9]*[a-z0-9])?`:
non-empty, every character lowercase alphanumeric or a hyphen, and the first
and last characters alphanumeric. -/
def dns1123LabelRegexOk (s : Str) : Bool :=
  match s with
  | [] => false
  | c :: rest =>
    decide (c ∈ lowerAlnumChars) &&
    (c :: rest).all (fun d => decide (d ∈ dnsLabelChars)) &&
    (match (c :: rest).getLast? with
     | some d => decide (d ∈ lowerAlnumChars)
     | none => false)

/-- Error message of apimachinery for an over-long DNS label. -/
def dns1123MaxErrMsg : Str := ("must be no more than 63 characters".toList)

/-- Error message of apimachinery for a label failing the RFC 1123 regex. -/
def dns1123RegexErrMsg : Str :=
  ("a lowercase RFC 1123 label must consist of lower case alphanumeric characters or -, and must start and end with an alphanumeric character".toList)

/-- Modelled from the spec: apimachinery's validation.IsDNS1123Label, which is
called by the source but whose code is not part of this repository.  It returns
the list of violated rules: a length bound of 63 characters and the RFC 1123
label regular expression; an empty list means the name is valid. -/
def IsDNS1123Label (s : Str) : List Str :=
  (if 63 < s.length then [dns1123MaxErrMsg] else []) ++
  (if dns1123LabelRegexOk s then [] else [dns1123RegexErrMsg])

/-- The literals accepted as true by Go's strconv.ParseBool. -/
def goTrueLiterals : List Str :=
  [("1".toList), ("t".toList), ("T".toList), ("TRUE".toList), ("true".toList), ("True".toList)]

/-- The literals accepted as false by Go's strconv.ParseBool. -/
def goFalseLiterals : List Str :=
  [("0".toList), ("f".toList), ("F".toList), ("FALSE".toList), ("false".toList), ("False".toList)]

/-- Modelled from the spec: Go's strconv.ParseBool, called by the source but
not code of this repository.  It accepts exactly the twelve literals
1, t, T, TRUE, true, True, 0, f, F, FALSE, false, False and fails on anything
else. -/
def parseBoolGo (s : Str) : Option Bool :=
  if s ∈ goTrueLiterals then some true
  else if s ∈ goFalseLiterals then some false
  else none

/-- A single parsed label-selector requirement (k8s.io/apimachinery's
labels.Requirement, restricted to the operators of the selector grammar). -/
inductive Requirement where
  | existsOp (key : Str)
  | doesNotExistOp (key : Str)
  | eqOp (key : Str) (value : Str)
  | neqOp (key : Str) (value : Str)
  | inOp (key : Str) (values : List Str)
  | notinOp (key : Str) (values : List Str)
deriving DecidableEq

/-- A parsed label selector: the conjunction of its requirements. -/
abbrev Selector := List Requirement

/-- A label (or annotation) map, embedded as an association list. -/
abbrev LabelSet := List (Str × Str)

/-- First-match lookup in an association list (Go map lookup; the maps handled
by the source have unique keys). -/
def lookupAL (m : LabelSet) (k : Str) : Option Str :=
  match m with
  | [] => none
  | (k', v) :: rest => if k' = k then some v else lookupAL rest k

/-- Whether one requirement holds of a namespace label set, with the
k8s.io/apimachinery matching semantics for absent keys. -/
def reqMatches (nsLabels : LabelSet) : Requirement → Bool
  | .existsOp k => (lookupAL nsLabels k).isSome
  | .doesNotExistOp k => (lookupAL nsLabels k).isNone
  | .eqOp k v => decide (lookupAL nsLabels k = some v)
  | .neqOp k v =>
    match lookupAL nsLabels k with
    | none => true
    | some v' => decide (v' ≠ v)
  | .inOp k vs =>
    match lookupAL nsLabels k with
    | none => false
    | some v' => decide (v' ∈ vs)
  | .notinOp k vs =>
    match lookupAL nsLabels k with
    | none => true
    | some v' => decide (v' ∉ vs)

/-- Selector matching: all requirements must hold (they are AND-ed). -/
def selMatches (sel : Selector) (nsLabels : LabelSet) : Bool :=
  sel.all (reqMatches nsLabels)

/-- Split a selector string on the commas that are not inside parentheses,
so that set values such as in-lists keep their internal commas. -/
def splitTopCommaAux (depth : Nat) (acc : Str) : Str → List Str
  | [] => [acc.reverse]
  | c :: rest =>
    if c = ',' ∧ depth = 0 then acc.reverse :: splitTopCommaAux 0 [] rest
    else if c = '(' then splitTopCommaAux (depth + 1) (c :: acc) rest
    else if c = ')' then splitTopCommaAux (depth - 1) (c :: acc) rest
    else splitTopCommaAux depth (c :: acc) rest

/-- Top-level comma split of a selector string. -/
def splitTopComma (s : Str) : List Str := splitTopCommaAux 0 [] s

/-- Build a key-operator-value requirement, rejecting an empty key. -/
def mkPairReq (op : Str → Str → Requirement) (k v : Str) : Except Str Requirement :=
  let k' := trimSpace k
  if k' = [] then .error ("empty label key in requirement".toList)
  else .ok (op k' (trimSpace v))

/-- Parse the parenthesised, comma-separated value list of an in/notin
requirement. -/
def parseSetValues (v : Str) : Except Str (List Str) :=
  match trimSpace v with
  | '(' :: rest =>
    match rest.getLast? with
    | some ')' => .ok ((splitOnChar ',' rest.dropLast).map trimSpace)
    | _ => .error ("expected a closing parenthesis in set requirement".toList)
  | _ => .error ("expected an opening parenthesis in set requirement".toList)

/-- Build an in/notin requirement, rejecting an empty key or malformed set. -/
def mkSetReq (op : Str → List Str → Requirement) (k v : Str) : Except Str Requirement :=
  let k' := trimSpace k
  if k' = [] then .error ("empty label key in set requirement".toList)
  else
    match parseSetValues v with
    | .error e => .error e
    | .ok vs => .ok (op k' vs)

/-- Modelled from the spec: one requirement of the label-selector expression
grammar parsed by the platform library (not code of this repository): the forms
`key op value`, bare `key` and `!key`, with operators =, ==, !=, in, notin. -/
def parseRequirement (seg0 : Str) : Except Str Requirement :=
  match trimSpace seg0 with
  | [] => .error ("found empty requirement".toList)
  | c :: rest =>
    if c = '!' then
      let key := trimSpace rest
      if key = [] then .error ("empty label key after negation".toList)
      else .ok (.doesNotExistOp key)
    else
      match splitFirst ("!=".toList) (c :: rest) with
      | some (k, v) => mkPairReq .neqOp k v
      | none =>
        match splitFirst ("==".toList) (c :: rest) with
        | some (k, v) => mkPairReq .eqOp k v
        | none =>
          match splitFirst ("=".toList) (c :: rest) with
          | some (k, v) => mkPairReq .eqOp k v
          | none =>
            match splitFirst (" notin ".toList) (c :: rest) with
            | some (k, v) => mkSetReq .notinOp k v
            | none =>
              match splitFirst (" in ".toList) (c :: rest) with
              | some (k, v) => mkSetReq .inOp k v
              | none => .ok (.existsOp (c :: rest))

/-- Modelled from the spec: the platform label-selector parser used by the
source through metav1.ParseToLabelSelector and LabelSelectorAsSelector (not
code of this repository).  A blank string parses to the empty, always-true
selector; otherwise the string is split on top-level commas and every segment
must parse as a requirement. -/
def parseToLabelSelector (s : Str) : Except Str Selector :=
  if trimSpace s = [] then .ok []
  else (splitTopComma s).mapM parseRequirement

/-- getSelectorFromString of the source: converts a string to a selector via
the platform parser. -/
def getSelectorFromString (s : Str) : Except Str Selector :=
  parseToLabelSelector s

/-- The resource object under a propagation decision: the four fields the
source reads from the unstructured object. -/
structure Unstructured where
  name : Str
  kind : Str
  group : Str
  labels : LabelSet
  annots : LabelSet
deriving DecidableEq

/-- Fixed annotation key api.AnnotationSelector. -/
def AnnotationSelector : Str := ("propagate.hnc.x-k8s.io/select".toList)

/-- Fixed annotation key api.AnnotationTreeSelector. -/
def AnnotationTreeSelector : Str := ("propagate.hnc.x-k8s.io/treeSelect".toList)

/-- Fixed annotation key api.AnnotationNoneSelector. -/
def AnnotationNoneSelector : Str := ("propagate.hnc.x-k8s.io/none".toList)

/-- Fixed annotation key api.AnnotationAllSelector. -/
def AnnotationAllSelector : Str := ("propagate.hnc.x-k8s.io/all".toList)

/-- Fixed depth-label suffix api.LabelTreeDepthSuffix. -/
def LabelTreeDepthSuffix : Str := (".tree.hnc.x-k8s.io/depth".toList)

/-- Go map indexing on the annotation map: a missing key yields the empty
string. -/
def getAnnotVal (inst : Unstructured) (key : Str) : Str :=
  (lookupAL inst.annots key).getD []

/-- GetSelectorAnnotation of the source. -/
def GetSelectorAnnot (inst : Unstructured) : Str :=
  getAnnotVal inst AnnotationSelector

/-- GetTreeSelectorAnnotation of the source. -/
def GetTreeSelectorAnnot (inst : Unstructured) : Str :=
  getAnnotVal inst AnnotationTreeSelector

/-- GetNoneSelectorAnnotation of the source. -/
def GetNoneSelectorAnnot (inst : Unstructured) : Str :=
  getAnnotVal inst AnnotationNoneSelector

/-- GetAllSelectorAnnotation of the source. -/
def GetAllSelectorAnnot (inst : Unstructured) : Str :=
  getAnnotVal inst AnnotationAllSelector

/-- The structured errors returned by the selectors package. -/
inductive Err where
  | parseFail (key : Str) (msg : Str)
  | invalidNsName (ns : Str) (msgs : List Str)
  | multipleNonNegated (nses : List Str)
  | internalParse (key : Str) (msg : Str)
  | invalidBool (key : Str)
deriving DecidableEq

/-- The result of running a Go function that may panic at runtime. -/
inductive PanicOr (α : Type) where
  | panics (msg : Str)
  | ok (val : α)
deriving DecidableEq

/-- validateTreeSelectorSegment of the source.  It trims the segment and then
unconditionally indexes its first character, so an empty segment makes the Go
code panic with an index-out-of-range runtime error; otherwise the segment
minus its optional leading negation marker must be a valid DNS-1123 label. -/
def validateTreeSelectorSegment (seg0 : Str) : PanicOr (Option Err) :=
  match trimSpace seg0 with
  | [] => .panics ("runtime error: index out of range".toList)
  | c :: rest =>
    match IsDNS1123Label (if c = '!' then rest else c :: rest) with
    | [] => .ok none
    | errs => .ok (some (.invalidNsName (if c = '!' then rest else c :: rest) errs))

/-- The loop body of GetTreeSelector of the source: trim and validate each
segment in order, collect the non-negated (trimmed) segments, and build the
rewritten selector string, appending the depth suffix to each segment and
joining the segments with a comma and a space.  The first validation error
aborts, and a panic aborts everything. -/
def treeSegsLoop : List Str → PanicOr (Except Err (Str × List Str))
  | [] => .ok (.ok ([], []))
  | seg0 :: rest =>
    match validateTreeSelectorSegment (trimSpace seg0) with
    | .panics m => .panics m
    | .ok (some e) => .ok (.error e)
    | .ok none =>
      match trimSpace seg0 with
      | [] => .panics ("runtime error: index out of range".toList)
      | c :: cs =>
        let nn : List Str := if c = '!' then [] else [c :: cs]
        let sep : Str := if rest = [] then [] else (", ".toList)
        match treeSegsLoop rest with
        | .panics m => .panics m
        | .ok (.error e) => .ok (.error e)
        | .ok (.ok (s, nns)) =>
          .ok (.ok ((c :: cs) ++ LabelTreeDepthSuffix ++ sep ++ s, nn ++ nns))

/-- GetTreeSelector of the source: an empty annotation means no selector;
otherwise the annotation is split on commas, every segment validated and
rewritten against the depth label, the rewritten string parsed, and finally
having more than one non-negated segment is rejected. -/
def GetTreeSelector (inst : Unstructured) : PanicOr (Option Selector × Option Err) :=
  let treeSelectorStr := GetTreeSelectorAnnot inst
  if treeSelectorStr = [] then .ok (none, none)
  else
    match treeSegsLoop (splitOnChar ',' treeSelectorStr) with
    | .panics m => .panics m
    | .ok (.error e) => .ok (none, some e)
    | .ok (.ok (selectorStr, nonNegatedNses)) =>
      match getSelectorFromString selectorStr with
      | .error msg => .ok (none, some (.internalParse AnnotationTreeSelector msg))
      | .ok treeSelector =>
        if 1 < nonNegatedNses.length then
          .ok (none, some (.multipleNonNegated nonNegatedNses))
        else .ok (some treeSelector, none)

/-- GetSelector of the source: parse the plain-selector annotation, wrapping a
parse failure with the annotation key. -/
def GetSelector (inst : Unstructured) : Option Selector × Option Err :=
  match getSelectorFromString (GetSelectorAnnot inst) with
  | .error msg => (none, some (.parseFail AnnotationSelector msg))
  | .ok sel => (some sel, none)

/-- GetNoneSelector of the source: empty annotation means false; otherwise a
strict Go boolean parse, whose failure is reported naming the annotation. -/
def GetNoneSelector (inst : Unstructured) : Bool × Option Err :=
  let s := GetNoneSelectorAnnot inst
  if s = [] then (false, none)
  else
    match parseBoolGo s with
    | some b => (b, none)
    | none => (false, some (.invalidBool AnnotationNoneSelector))

/-- GetAllSelector of the source: same contract as GetNoneSelector for the
all-selector annotation. -/
def GetAllSelector (inst : Unstructured) : Bool × Option Err :=
  let s := GetAllSelectorAnnot inst
  if s = [] then (false, none)
  else
    match parseBoolGo s with
    | some b => (b, none)
    | none => (false, some (.invalidBool AnnotationAllSelector))

/-- cmExclusionsByName of the source. -/
def cmExclusionsByName : List Str :=
  [("istio-ca-root-cert".toList), ("kube-root-ca.crt".toList)]

/-- ExclusionByLabelsSpec of the source. -/
structure ExclusionByLabelsSpec where
  key : Str
  value : Str
deriving DecidableEq

/-- exclusionByLabels of the source. -/
def exclusionByLabels : List ExclusionByLabelsSpec :=
  [⟨("cattle.io/creator".toList), ("norman".toList)⟩]

/-- ExclusionByAnnotationsSpec of the source. -/
structure ExclusionByAnnotsSpec where
  key : Str
  value : Str
deriving DecidableEq

/-- exclusionByAnnotations of the source (the openshift entry has an empty
expected value, the key-presence wildcard). -/
def exclusionByAnnots : List ExclusionByAnnotsSpec :=
  [⟨("openshift.io/description".toList), []⟩]

/-- isExcluded of the source: three first-match-wins rule groups, by name,
by label (explicit key presence) and by annotation (value match or empty-value
wildcard); the error component is always nil. -/
def isExcluded (inst : Unstructured) : Bool × Option Err :=
  if cmExclusionsByName.any (fun n =>
      decide (inst.group = [] ∧ inst.kind = ("ConfigMap".toList) ∧ inst.name = n)) then
    (true, none)
  else if exclusionByLabels.any (fun r =>
      decide (lookupAL inst.labels r.key = some r.value)) then
    (true, none)
  else if exclusionByAnnots.any (fun r =>
      match lookupAL inst.annots r.key with
      | some v => decide (v = r.value ∨ r.value = [])
      | none => false) then
    (true, none)
  else (false, none)

/-- The comma-space join of requirement strings built by the GetTreeSelector
loop (a separator is appended after every segment except the last one). -/
def joinCommaSpace : List Str → Str
  | [] => []
  | [r] => r
  | r :: rest => r ++ ',' :: ' ' :: joinCommaSpace rest

/-- The trimmed segments of a tree-selector annotation that carry no leading
negation marker, in order: the names the GetTreeSelector loop collects as
non-negated. -/
def nonNegOf (segs : List Str) : List Str :=
  (segs.map trimSpace).filter (fun t => !(t.head? == some '!'))

/-- A tree-selector segment accepted by validateTreeSelectorSegment: non-empty
after trimming, and a valid DNS-1123 label once the optional leading negation
marker is stripped. -/
def validSegB (seg : Str) : Bool :=
  match trimSpace seg with
  | [] => false
  | c :: cs => decide (IsDNS1123Label (if c = '!' then cs else c :: cs) = [])

/-- The step guard `sel != nil && !sel.Matches(nsLabels)` of the source. -/
def selPresentAndNotMatches (sel : Option Selector) (nsLabels : LabelSet) : Bool :=
  match sel with
  | some s => !selMatches s nsLabels
  | none => false

/-- The step guard `sel != nil && !sel.Empty()` of the source. -/
def selPresentAndNotEmpty (sel : Option Selector) : Bool :=
  match sel with
  | some s => !s.isEmpty
  | none => false

/-- ShouldPropagate of the source: the six-step precedence chain over the four
selector mechanisms and the exclusion policy, propagating the first error met
on the path actually evaluated and the panic of the tree parser. -/
def ShouldPropagate (inst : Unstructured) (nsLabels : LabelSet) :
    PanicOr (Bool × Option Err) :=
  match GetSelector inst with
  | (_, some e) => .ok (false, some e)
  | (sel, none) =>
    if selPresentAndNotMatches sel nsLabels then .ok (false, none)
    else
      match GetTreeSelector inst with
      | .panics m => .panics m
      | .ok (_, some e) => .ok (false, some e)
      | .ok (tsel, none) =>
        if selPresentAndNotMatches tsel nsLabels then .ok (false, none)
        else
          match GetNoneSelector inst with
          | (_, some e) => .ok (false, some e)
          | (true, none) => .ok (false, none)
          | (false, none) =>
            match GetAllSelector inst with
            | (_, some e) => .ok (true, some e)
            | (true, none) => .ok (true, none)
            | (false, none) =>
              match isExcluded inst with
              | (true, e) => .ok (false, e)
              | (false, _) => .ok (true, none)

/-- SelectorExists of the source: is any propagation-control directive set on
the object?  The nsLabels argument is taken but never read. -/
def SelectorExists (inst : Unstructured) (nsLabels : LabelSet) :
    PanicOr (Bool × Option Err) :=
  match GetSelector inst with
  | (_, some e) => .ok (false, some e)
  | (sel, none) =>
    if selPresentAndNotEmpty sel then .ok (true, none)
    else
      match GetTreeSelector inst with
      | .panics m => .panics m
      | .ok (_, some e) => .ok (false, some e)
      | .ok (tsel, none) =>
        if selPresentAndNotEmpty tsel then .ok (true, none)
        else
          match GetNoneSelector inst with
          | (_, some e) => .ok (true, some e)
          | (true, none) => .ok (true, none)
          | (false, none) =>
            match GetAllSelector inst with
            | (_, some e) => .ok (true, some e)
            | (true, none) => .ok (true, none)
            | (false, none) => .ok (false, none)

/-! ## Helper lemmas -/

/-- The error component of the exclusion policy is nil on every path. -/
theorem isExcluded_err_none (inst : Unstructured) : (isExcluded inst).2 = none := by
  unfold isExcluded
  split_ifs <;> rfl

/-- Guard reduction for a present plain selector. -/
theorem selPresentAndNotMatches_some (s : Selector) (l : LabelSet) :
    selPresentAndNotMatches (some s) l = !selMatches s l := rfl

/-- Guard reduction for a present selector in the exists query. -/
theorem selPresentAndNotEmpty_some (s : Selector) :
    selPresentAndNotEmpty (some s) = !s.isEmpty := rfl

/-- Guard reduction for an absent tree selector in the propagation query. -/
theorem selPresentAndNotMatches_none (l : LabelSet) :
    selPresentAndNotMatches none l = false := rfl

/-- Guard reduction for an absent tree selector in the exists query. -/
theorem selPresentAndNotEmpty_none : selPresentAndNotEmpty none = false := rfl

/-- Parsing the empty string yields the empty selector. -/
theorem getSelectorFromString_nil : getSelectorFromString [] = .ok [] := rfl

/-- An object with an empty (or absent) plain-selector annotation gets the
empty selector and no error. -/
theorem getSelector_of_empty {inst : Unstructured} (h : GetSelectorAnnot inst = []) :
    GetSelector inst = (some [], none) := by
  unfold GetSelector
  rw [h]
  rfl

/-- An object with an empty (or absent) tree-selector annotation gets no tree
selector and no error. -/
theorem getTreeSelector_of_empty {inst : Unstructured} (h : GetTreeSelectorAnnot inst = []) :
    GetTreeSelector inst = .ok (none, none) := by
  unfold GetTreeSelector
  rw [h]
  rfl

/-! ## Claims -/

/-- C9: SelectorExists returns the same result on any two namespace label
sets: its nsLabels argument does not influence its output. -/
theorem selectorExists_ignores_nsLabels (inst : Unstructured) (l1 l2 : LabelSet) :
    SelectorExists inst l1 = SelectorExists inst l2 := rfl

/-- C5 (divergence witness): on the tree-selector annotation value consisting
of a name and a trailing comma, the empty final segment reaches the
first-character index of validateTreeSelectorSegment and the Go code panics
with an index-out-of-range runtime error instead of returning a validation
error. -/
theorem getTreeSelector_empty_segment_panics :
    GetTreeSelector ⟨[], [], [], [], [(AnnotationTreeSelector, ("a,".toList))]⟩ =
      .panics ("runtime error: index out of range".toList) := by rfl

/-- C7 (counterexample): the string tRUE is a case-insensitive spelling of
true, yet the boolean flag parser rejects it with an error naming the
annotation, refuting the claim that every case-insensitive spelling of
true/false is accepted. -/
theorem boolFlag_mixed_case_cex :
    (("tRUE".toList).map Char.toLower = ("true".toList)) ∧
    GetNoneSelector ⟨[], [], [], [], [(AnnotationNoneSelector, ("tRUE".toList))]⟩ =
      (false, some (.invalidBool AnnotationNoneSelector)) := by
  constructor
  · decide
  · rfl

/-- C7 (amended): the flag parsers map the empty string to (false, nil); they
accept exactly the twelve Go boolean literals 1, t, T, TRUE, true, True and
0, f, F, FALSE, false, False, mapping them to the corresponding boolean with
nil error; and they return an error naming the offending annotation on any
other non-empty content. -/
theorem boolFlagParsers_spec (inst : Unstructured) :
    (GetNoneSelectorAnnot inst = [] → GetNoneSelector inst = (false, none)) ∧
    (GetNoneSelectorAnnot inst ∈ goTrueLiterals → GetNoneSelector inst = (true, none)) ∧
    (GetNoneSelectorAnnot inst ∈ goFalseLiterals → GetNoneSelector inst = (false, none)) ∧
    (GetNoneSelectorAnnot inst ≠ [] → GetNoneSelectorAnnot inst ∉ goTrueLiterals →
      GetNoneSelectorAnnot inst ∉ goFalseLiterals →
      GetNoneSelector inst = (false, some (.invalidBool AnnotationNoneSelector))) ∧
    (GetAllSelectorAnnot inst = [] → GetAllSelector inst = (false, none)) ∧
    (GetAllSelectorAnnot inst ∈ goTrueLiterals → GetAllSelector inst = (true, none)) ∧
    (GetAllSelectorAnnot inst ∈ goFalseLiterals → GetAllSelector inst = (false, none)) ∧
    (GetAllSelectorAnnot inst ≠ [] → GetAllSelectorAnnot inst ∉ goTrueLiterals →
      GetAllSelectorAnnot inst ∉ goFalseLiterals →
      GetAllSelector inst = (false, some (.invalidBool AnnotationAllSelector))) := by
  refine ⟨?_, ?_, ?_, ?_, ?_, ?_, ?_, ?_⟩
  · intro h
    simp [GetNoneSelector, h]
  · intro h
    have hne : GetNoneSelectorAnnot inst ≠ [] := by
      intro he
      rw [he] at h
      exact absurd h (by decide)
    simp [GetNoneSelector, parseBoolGo, hne, h]
  · intro h
    have hne : GetNoneSelectorAnnot inst ≠ [] := by
      intro he
      rw [he] at h
      exact absurd h (by decide)
    have hnt : GetNoneSelectorAnnot inst ∉ goTrueLiterals := by
      intro ht
      simp only [goTrueLiterals, List.mem_cons, List.not_mem_nil, or_false] at ht
      rcases ht with h' | h' | h' | h' | h' | h' <;>
        · rw [h'] at h
          exact absurd h (by decide)
    simp [GetNoneSelector, parseBoolGo, hne, hnt, h]
  · intro h h1 h2
    simp [GetNoneSelector, parseBoolGo, h, h1, h2]
  · intro h
    simp [GetAllSelector, h]
  · intro h
    have hne : GetAllSelectorAnnot inst ≠ [] := by
      intro he
      rw [he] at h
      exact absurd h (by decide)
    simp [GetAllSelector, parseBoolGo, hne, h]
  · intro h
    have hne : GetAllSelectorAnnot inst ≠ [] := by
      intro he
      rw [he] at h
      exact absurd h (by decide)
    have hnt : GetAllSelectorAnnot inst ∉ goTrueLiterals := by
      intro ht
      simp only [goTrueLiterals, List.mem_cons, List.not_mem_nil, or_false] at ht
      rcases ht with h' | h' | h' | h' | h' | h' <;>
        · rw [h'] at h
          exact absurd h (by decide)
    simp [GetAllSelector, parseBoolGo, hne, hnt, h]
  · intro h h1 h2
    simp [GetAllSelector, parseBoolGo, h, h1, h2]

/-- C7 witness: TRUE parses as true for the none flag, and notabool yields an
error naming the all-selector annotation. -/
theorem boolFlagParsers_spec_witness :
    GetNoneSelector ⟨[], [], [], [], [(AnnotationNoneSelector, ("TRUE".toList))]⟩ = (true, none) ∧
    GetAllSelector ⟨[], [], [], [], [(AnnotationAllSelector, ("notabool".toList))]⟩ =
      (false, some (.invalidBool AnnotationAllSelector)) :=
  ⟨(boolFlagParsers_spec _).2.1 (by decide),
   (boolFlagParsers_spec _).2.2.2.2.2.2.2 (by decide) (by decide) (by decide)⟩

/-- C8: the exclusion policy reports excluded exactly when one of the three
rule groups fires: the ConfigMap denylist by name in the empty API group, a
label table entry matched on explicit key presence and equal value, or an
annotation table entry matched on equal value or on key presence alone when
the expected value is the empty wildcard; the error is always nil. -/
theorem isExcluded_spec (inst : Unstructured) :
    (isExcluded inst).2 = none ∧
    ((isExcluded inst).1 = true ↔
      (inst.group = [] ∧ inst.kind = ("ConfigMap".toList) ∧ inst.name ∈ cmExclusionsByName) ∨
      (∃ r ∈ exclusionByLabels, lookupAL inst.labels r.key = some r.value) ∨
      (∃ r ∈ exclusionByAnnots, ∃ v, lookupAL inst.annots r.key = some v ∧
        (v = r.value ∨ r.value = []))) := by
  refine ⟨isExcluded_err_none inst, ?_⟩
  have hname : (cmExclusionsByName.any (fun n =>
      decide (inst.group = [] ∧ inst.kind = ("ConfigMap".toList) ∧ inst.name = n)) = true) ↔
      (inst.group = [] ∧ inst.kind = ("ConfigMap".toList) ∧ inst.name ∈ cmExclusionsByName) := by
    simp only [List.any_eq_true, decide_eq_true_eq]
    constructor
    · rintro ⟨n, hn, hg, hk, he⟩
      exact ⟨hg, hk, he ▸ hn⟩
    · rintro ⟨hg, hk, hm⟩
      exact ⟨inst.name, hm, hg, hk, rfl⟩
  have hlabel : (exclusionByLabels.any (fun r =>
      decide (lookupAL inst.labels r.key = some r.value)) = true) ↔
      (∃ r ∈ exclusionByLabels, lookupAL inst.labels r.key = some r.value) := by
    simp only [List.any_eq_true, decide_eq_true_eq]
  have hmatch : ∀ (r : ExclusionByAnnotsSpec),
      ((match lookupAL inst.annots r.key with
        | some v => decide (v = r.value ∨ r.value = [])
        | none => false) = true) ↔
      (∃ v, lookupAL inst.annots r.key = some v ∧ (v = r.value ∨ r.value = [])) := by
    intro r
    cases h : lookupAL inst.annots r.key <;> simp [h]
  have hannot : (exclusionByAnnots.any (fun r =>
      match lookupAL inst.annots r.key with
      | some v => decide (v = r.value ∨ r.value = [])
      | none => false) = true) ↔
      (∃ r ∈ exclusionByAnnots, ∃ v, lookupAL inst.annots r.key = some v ∧
        (v = r.value ∨ r.value = [])) := by
    simp only [List.any_eq_true]
    constructor
    · rintro ⟨r, hr, hv⟩
      exact ⟨r, hr, (hmatch r).mp hv⟩
    · rintro ⟨r, hr, hv⟩
      exact ⟨r, hr, (hmatch r).mpr hv⟩
  unfold isExcluded
  split_ifs with h1 h2 h3
  · simp only [hname] at h1
    simp [h1]
  · simp only [hlabel] at h2
    simp [h2]
  · simp only [hannot] at h3
    simp [h3]
  · simp only [hname] at h1
    simp only [hlabel] at h2
    simp only [hannot] at h3
    refine iff_of_false (by decide) ?_
    rintro (hc | hc | hc)
    · exact h1 hc
    · exact h2 hc
    · exact h3 hc

/-- C8 witness: the kube-root CA ConfigMap in the empty group is excluded. -/
theorem isExcluded_spec_witness :
    (isExcluded ⟨("kube-root-ca.crt".toList), ("ConfigMap".toList), [], [], []⟩).1 = true :=
  (isExcluded_spec _).2.mpr (Or.inl ⟨rfl, rfl, by decide⟩)

/-- C1: with no parse or validation error, ShouldPropagate follows the fixed
six-step precedence: false on a present non-matching plain selector, else
false on a present non-matching tree selector, else false when the none flag
is true, else true when the all flag is true (bypassing the exclusion check,
so an excluded object with the all flag still gets true), else false when the
exclusion policy reports the object excluded, else true. -/
theorem shouldPropagate_precedence (inst : Unstructured) (nsLabels : LabelSet)
    (s : Selector) (t : Option Selector) (n a : Bool)
    (hs : GetSelector inst = (some s, none))
    (ht : GetTreeSelector inst = .ok (t, none))
    (hn : GetNoneSelector inst = (n, none))
    (ha : GetAllSelector inst = (a, none)) :
    ShouldPropagate inst nsLabels = .ok
      ((if !selMatches s nsLabels then false
        else if selPresentAndNotMatches t nsLabels then false
        else if n then false
        else if a then true
        else if (isExcluded inst).1 then false
        else true), none) := by
  cases hEx : isExcluded inst with
  | mk exb exe =>
    have hE := isExcluded_err_none inst
    rw [hEx] at hE
    simp only at hE
    subst hE
    unfold ShouldPropagate
    cases hm : selMatches s nsLabels <;>
      cases hmt : selPresentAndNotMatches t nsLabels <;>
        cases n <;> cases a <;> cases exb <;>
          simp [hs, ht, hn, ha, hEx, selPresentAndNotMatches_some, hm, hmt]

/-- C1 witness: an excluded-by-name ConfigMap with the all flag set still gets
a true verdict: the all flag bypasses the exclusion check. -/
theorem shouldPropagate_precedence_witness :
    ShouldPropagate ⟨("istio-ca-root-cert".toList), ("ConfigMap".toList), [], [],
      [(AnnotationAllSelector, ("true".toList))]⟩ [] = .ok (true, none) := by
  have h := shouldPropagate_precedence
    ⟨("istio-ca-root-cert".toList), ("ConfigMap".toList), [], [],
      [(AnnotationAllSelector, ("true".toList))]⟩ [] [] none false true rfl rfl rfl rfl
  rw [h]
  rfl

/-- C3: with no parse or validation error, SelectorExists is true exactly when
the plain selector is present and non-empty, or the tree selector is present
and non-empty, or the none flag is true, or the all flag is true. -/
theorem selectorExists_spec (inst : Unstructured) (nsLabels : LabelSet)
    (s : Selector) (t : Option Selector) (n a : Bool)
    (hs : GetSelector inst = (some s, none))
    (ht : GetTreeSelector inst = .ok (t, none))
    (hn : GetNoneSelector inst = (n, none))
    (ha : GetAllSelector inst = (a, none)) :
    SelectorExists inst nsLabels =
      .ok ((!s.isEmpty || selPresentAndNotEmpty t || n || a), none) := by
  unfold SelectorExists
  cases he : s.isEmpty <;>
    cases het : selPresentAndNotEmpty t <;>
      cases n <;> cases a <;>
        simp [hs, ht, hn, ha, selPresentAndNotEmpty_some, he, het]

/-- C3 witness: an object with no recognized annotations yields (false, nil). -/
theorem selectorExists_spec_witness :
    SelectorExists ⟨[], [], [], [], []⟩ [] = .ok (false, none) := by
  have h := selectorExists_spec ⟨[], [], [], [], []⟩ [] [] none false false rfl rfl rfl rfl
  rw [h]
  rfl

/-- C2 (counterexample): on an object whose plain selector is x=y and whose
tree selector a,b fails validation (two non-negated names), evaluated against
the empty namespace label set, ShouldPropagate returns (false, nil): the
non-matching plain selector short-circuits before the malformed tree selector
is examined, so the validation error is never returned to the caller. -/
theorem shouldPropagate_error_swallowed_cex :
    GetTreeSelector ⟨[], [], [], [],
      [(AnnotationSelector, ("x=y".toList)), (AnnotationTreeSelector, ("a,b".toList))]⟩ =
      .ok (none, some (.multipleNonNegated [("a".toList), ("b".toList)])) ∧
    ShouldPropagate ⟨[], [], [], [],
      [(AnnotationSelector, ("x=y".toList)), (AnnotationTreeSelector, ("a,b".toList))]⟩ [] =
      .ok (false, none) := ⟨rfl, rfl⟩

/-- C2 (amended): ShouldPropagate returns the first error met in evaluation
order, never converting it into an error-free verdict: a plain-selector error
is always returned; a tree-selector error is returned whenever the plain
selector matched; a none-flag error is returned whenever both selectors
matched; and an all-flag error is returned (with verdict true) whenever both
selectors matched and the none flag was false. -/
theorem shouldPropagate_first_error (inst : Unstructured) (nsLabels : LabelSet) :
    (∀ x e, GetSelector inst = (x, some e) →
      ShouldPropagate inst nsLabels = .ok (false, some e)) ∧
    (∀ s, GetSelector inst = (some s, none) → selMatches s nsLabels = true →
      ∀ x e, GetTreeSelector inst = .ok (x, some e) →
        ShouldPropagate inst nsLabels = .ok (false, some e)) ∧
    (∀ s, GetSelector inst = (some s, none) → selMatches s nsLabels = true →
      ∀ t, GetTreeSelector inst = .ok (t, none) →
        selPresentAndNotMatches t nsLabels = false →
        ∀ x e, GetNoneSelector inst = (x, some e) →
          ShouldPropagate inst nsLabels = .ok (false, some e)) ∧
    (∀ s, GetSelector inst = (some s, none) → selMatches s nsLabels = true →
      ∀ t, GetTreeSelector inst = .ok (t, none) →
        selPresentAndNotMatches t nsLabels = false →
        GetNoneSelector inst = (false, none) →
        ∀ x e, GetAllSelector inst = (x, some e) →
          ShouldPropagate inst nsLabels = .ok (true, some e)) := by
  refine ⟨?_, ?_, ?_, ?_⟩
  · intro x e h
    unfold ShouldPropagate
    simp [h]
  · intro s hs hm x e h
    unfold ShouldPropagate
    simp [hs, selPresentAndNotMatches_some, hm, h]
  · intro s hs hm t ht hmt x e h
    unfold ShouldPropagate
    simp [hs, selPresentAndNotMatches_some, hm, ht, hmt, h]
  · intro s hs hm t ht hmt hn x e h
    unfold ShouldPropagate
    simp [hs, selPresentAndNotMatches_some, hm, ht, hmt, hn, h]

/-- C2 witness: with no selectors set and an invalid none flag, the none-flag
parse error is returned by ShouldPropagate. -/
theorem shouldPropagate_first_error_witness :
    ShouldPropagate ⟨[], [], [], [], [(AnnotationNoneSelector, ("bogus".toList))]⟩ [] =
      .ok (false, some (.invalidBool AnnotationNoneSelector)) :=
  (shouldPropagate_first_error ⟨[], [], [], [],
      [(AnnotationNoneSelector, ("bogus".toList))]⟩ []).2.2.1
    [] rfl rfl none rfl rfl false (.invalidBool AnnotationNoneSelector) rfl

/-- C10 (counterexample): on an object with both selector annotations absent,
the none flag true and the all flag set to the invalid literal bogus,
SelectorExists returns (true, nil): the none-flag step short-circuits before
the invalid all flag is parsed, so no parse error accompanies the true. -/
theorem selectorExists_error_true_cex :
    (GetAllSelector ⟨[], [], [], [],
      [(AnnotationNoneSelector, ("true".toList)),
       (AnnotationAllSelector, ("bogus".toList))]⟩).2 =
      some (.invalidBool AnnotationAllSelector) ∧
    SelectorExists ⟨[], [], [], [],
      [(AnnotationNoneSelector, ("true".toList)),
       (AnnotationAllSelector, ("bogus".toList))]⟩ [] =
      .ok (true, none) := ⟨rfl, rfl⟩

/-- C10 (amended): with both selector annotations absent or empty, the flag
error paths of SelectorExists report existence as true: a none-flag parse
error is returned with boolean true, and when the none flag resolved to false
an all-flag parse error is likewise returned with boolean true. -/
theorem selectorExists_error_reports_true (inst : Unstructured) (nsLabels : LabelSet)
    (hsel : GetSelectorAnnot inst = []) (htree : GetTreeSelectorAnnot inst = []) :
    (∀ x e, GetNoneSelector inst = (x, some e) →
      SelectorExists inst nsLabels = .ok (true, some e)) ∧
    (GetNoneSelector inst = (false, none) →
      ∀ x e, GetAllSelector inst = (x, some e) →
        SelectorExists inst nsLabels = .ok (true, some e)) := by
  have h1 := getSelector_of_empty hsel
  have h2 := getTreeSelector_of_empty htree
  constructor
  · intro x e h
    unfold SelectorExists
    simp [h1, h2, selPresentAndNotEmpty_some, selPresentAndNotEmpty_none, h]
  · intro hn x e h
    unfold SelectorExists
    simp [h1, h2, selPresentAndNotEmpty_some, selPresentAndNotEmpty_none, hn, h]

/-- C10 witness: an invalid none flag alone makes SelectorExists report
(true, parse error). -/
theorem selectorExists_error_reports_true_witness :
    SelectorExists ⟨[], [], [], [], [(AnnotationNoneSelector, ("bogus".toList))]⟩ [] =
      .ok (true, some (.invalidBool AnnotationNoneSelector)) :=
  (selectorExists_error_reports_true ⟨[], [], [], [],
      [(AnnotationNoneSelector, ("bogus".toList))]⟩ [] rfl rfl).1
    false (.invalidBool AnnotationNoneSelector) rfl

/-! ## String lemmas for the tree-selector proofs -/

/-- dropWhile is the identity when the head does not satisfy the predicate. -/
theorem dropWhile_eq_self_of {p : Char → Bool} {s : Str}
    (h : ∀ c ∈ s, p c = false) : s.dropWhile p = s := by
  cases s with
  | nil => rfl
  | cons a l =>
    rw [List.dropWhile_cons, h a (List.mem_cons_self a l)]
    simp

/-- trimSpace is the identity on strings without whitespace characters. -/
theorem trimSpace_eq_self {s : Str} (h : ∀ c ∈ s, isSpaceChar c = false) :
    trimSpace s = s := by
  unfold trimSpace trimLeft trimRight
  rw [dropWhile_eq_self_of h]
  rw [dropWhile_eq_self_of (fun c hc => h c (List.mem_reverse.mp hc))]
  exact List.reverse_reverse s

/-- trimSpace absorbs a leading blank. -/
theorem trimSpace_cons_space (s : Str) : trimSpace (' ' :: s) = trimSpace s := by
  unfold trimSpace trimLeft
  rw [List.dropWhile_cons]
  have h : isSpaceChar ' ' = true := rfl
  rw [h, if_pos rfl]

/-- trimSpace keeps a string non-empty when its first character is not
whitespace. -/
theorem trimSpace_ne_nil {c : Char} {s : Str} (h : isSpaceChar c = false) :
    trimSpace (c :: s) ≠ [] := by
  unfold trimSpace trimLeft trimRight
  rw [List.dropWhile_cons, h]
  simp only [Bool.false_eq_true, if_false]
  intro hcon
  have h2 : (c :: s).reverse.dropWhile isSpaceChar = [] := by
    cases hd : (c :: s).reverse.dropWhile isSpaceChar with
    | nil => rfl
    | cons x xs =>
      rw [hd] at hcon
      simp at hcon
  have h3 := List.dropWhile_eq_nil_iff.mp h2
  have h4 : isSpaceChar c = true := h3 c (by simp)
  rw [h] at h4
  exact Bool.false_ne_true h4

/-- Splitting on a separator that does not occur yields the whole string. -/
theorem splitOnChar_no_sep {sep : Char} {s : Str} (h : ∀ c ∈ s, c ≠ sep) :
    splitOnChar sep s = [s] := by
  induction s with
  | nil => rfl
  | cons c rest ih =>
    simp only [splitOnChar]
    rw [if_neg (h c (List.mem_cons_self c rest))]
    rw [ih (fun d hd => h d (List.mem_cons_of_mem c hd))]

/-- splitFirst finds nothing when some character of the pattern is absent from
the string. -/
theorem splitFirst_none_of {pat : Str} {c : Char} (hc : c ∈ pat) :
    ∀ {s : Str}, c ∉ s → splitFirst pat s = none := by
  intro s
  induction s with
  | nil => intro _; rfl
  | cons a rest ih =>
    intro hns
    simp only [splitFirst]
    rw [if_neg ?hpre]
    · rw [ih (fun hm => hns (List.mem_cons_of_mem a hm))]
    case hpre =>
      intro hpref
      have hsub : pat <+: a :: rest := List.isPrefixOf_iff_prefix.mp hpref
      exact hns (hsub.subset hc)

/-- A comma-free string is never split by splitTopCommaAux. -/
theorem splitTopCommaAux_no_comma {s : Str} (h : ∀ c ∈ s, c ≠ ',') :
    ∀ d acc, splitTopCommaAux d acc s = [acc.reverse ++ s] := by
  induction s with
  | nil =>
    intro d acc
    simp [splitTopCommaAux]
  | cons c rest ih =>
    intro d acc
    have hc := h c (List.mem_cons_self c rest)
    have ih' := ih (fun x hx => h x (List.mem_cons_of_mem c hx))
    simp only [splitTopCommaAux]
    rw [if_neg (fun hand => hc hand.1)]
    split_ifs <;>
      · rw [ih']
        simp

/-- splitTopCommaAux splits at a depth-zero comma after a clean prefix. -/
theorem splitTopCommaAux_append_comma {s : Str}
    (h : ∀ c ∈ s, c ≠ ',' ∧ c ≠ '(' ∧ c ≠ ')') :
    ∀ acc r, splitTopCommaAux 0 acc (s ++ ',' :: r) =
      (acc.reverse ++ s) :: splitTopCommaAux 0 [] r := by
  induction s with
  | nil =>
    intro acc r
    simp [splitTopCommaAux]
  | cons c rest ih =>
    intro acc r
    obtain ⟨h1, h2, h3⟩ := h c (List.mem_cons_self c rest)
    have ih' := ih (fun x hx => h x (List.mem_cons_of_mem c hx))
    simp only [List.cons_append, splitTopCommaAux]
    rw [if_neg (fun hand => h1 hand.1), if_neg h2, if_neg h3]
    simp only [List.append_eq]
    rw [ih' (c :: acc) r]
    simp

/-- The accumulator of splitTopCommaAux only prefixes the first part. -/
theorem splitTopCommaAux_acc (s : Str) : ∀ (d : Nat) (acc : Str),
    splitTopCommaAux d acc s =
      match splitTopCommaAux d [] s with
      | [] => [acc.reverse]
      | h :: t => (acc.reverse ++ h) :: t := by
  induction s with
  | nil =>
    intro d acc
    simp [splitTopCommaAux]
  | cons c rest ih =>
    intro d acc
    by_cases h1 : c = ',' ∧ d = 0
    · simp only [splitTopCommaAux, if_pos h1]
      simp
    · by_cases h2 : c = '('
      · simp only [splitTopCommaAux, if_neg h1, if_pos h2]
        rw [ih (d + 1) (c :: acc), ih (d + 1) [c]]
        cases hres : splitTopCommaAux (d + 1) [] rest <;> simp
      · by_cases h3 : c = ')'
        · simp only [splitTopCommaAux, if_neg h1, if_neg h2, if_pos h3]
          rw [ih (d - 1) (c :: acc), ih (d - 1) [c]]
          cases hres : splitTopCommaAux (d - 1) [] rest <;> simp
        · simp only [splitTopCommaAux, if_neg h1, if_neg h2, if_neg h3]
          rw [ih d (c :: acc), ih d [c]]
          cases hres : splitTopCommaAux d [] rest <;> simp

/-- Every DNS-label character is harmless for the selector grammar. -/
theorem dnsChar_props : ∀ c ∈ dnsLabelChars,
    isSpaceChar c = false ∧ c ≠ ',' ∧ c ≠ '(' ∧ c ≠ ')' ∧ c ≠ '=' ∧ c ≠ '!' := by decide

/-- Every character of the depth-label suffix is harmless for the selector
grammar. -/
theorem suffixChar_props : ∀ c ∈ LabelTreeDepthSuffix,
    isSpaceChar c = false ∧ c ≠ ',' ∧ c ≠ '(' ∧ c ≠ ')' ∧ c ≠ '=' := by decide

/-- A name with no validation errors matches the RFC 1123 label regex. -/
theorem isDNS_nil_regexOk {s : Str} (h : IsDNS1123Label s = []) :
    dns1123LabelRegexOk s = true := by
  by_cases hr : dns1123LabelRegexOk s = true
  · exact hr
  · exfalso
    unfold IsDNS1123Label at h
    rw [if_neg hr] at h
    rcases List.append_eq_nil.mp h with ⟨-, h2⟩
    simp at h2

/-- A regex-valid label is non-empty and made of DNS-label characters. -/
theorem regexOk_props {s : Str} (h : dns1123LabelRegexOk s = true) :
    s ≠ [] ∧ ∀ c ∈ s, c ∈ dnsLabelChars := by
  cases s with
  | nil => exact absurd h (by decide)
  | cons c rest =>
    refine ⟨by simp, ?_⟩
    unfold dns1123LabelRegexOk at h
    simp only [Bool.and_eq_true, List.all_eq_true, decide_eq_true_eq] at h
    exact h.1.2

/-- parseRequirement ignores a leading blank. -/
theorem parseRequirement_cons_space (x : Str) :
    parseRequirement (' ' :: x) = parseRequirement x := by
  unfold parseRequirement
  rw [trimSpace_cons_space]

/-- A non-negated depth requirement string parses as a key-exists
requirement. -/
theorem parseRequirement_existsreq {ns : Str} (hne : ns ≠ [])
    (hc : ∀ c ∈ ns, c ∈ dnsLabelChars) :
    parseRequirement (ns ++ LabelTreeDepthSuffix) =
      .ok (.existsOp (ns ++ LabelTreeDepthSuffix)) := by
  have hall : ∀ c ∈ ns ++ LabelTreeDepthSuffix,
      isSpaceChar c = false ∧ c ≠ ',' ∧ c ≠ '(' ∧ c ≠ ')' ∧ c ≠ '=' := by
    intro c hm
    rcases List.mem_append.mp hm with hm' | hm'
    · obtain ⟨a1, a2, a3, a4, a5, -⟩ := dnsChar_props c (hc c hm')
      exact ⟨a1, a2, a3, a4, a5⟩
    · exact suffixChar_props c hm'
  have htrim : trimSpace (ns ++ LabelTreeDepthSuffix) = ns ++ LabelTreeDepthSuffix :=
    trimSpace_eq_self (fun c hm => (hall c hm).1)
  have hnoeq : '=' ∉ ns ++ LabelTreeDepthSuffix := fun hm => (hall _ hm).2.2.2.2 rfl
  have hnosp : ' ' ∉ ns ++ LabelTreeDepthSuffix := by
    intro hm
    exact absurd ((hall _ hm).1) (by decide)
  cases ns with
  | nil => exact absurd rfl hne
  | cons c0 ns' =>
    have hc0 : c0 ∈ dnsLabelChars := hc c0 (List.mem_cons_self c0 ns')
    have hc0ne : ¬(c0 = '!') := by
      intro he
      rw [he] at hc0
      exact absurd hc0 (by decide)
    have e1 : splitFirst ("!=".toList) (c0 :: (ns' ++ LabelTreeDepthSuffix)) = none :=
      splitFirst_none_of (by decide) hnoeq
    have e2 : splitFirst ("==".toList) (c0 :: (ns' ++ LabelTreeDepthSuffix)) = none :=
      splitFirst_none_of (by decide) hnoeq
    have e3 : splitFirst ("=".toList) (c0 :: (ns' ++ LabelTreeDepthSuffix)) = none :=
      splitFirst_none_of (by decide) hnoeq
    have e4 : splitFirst (" notin ".toList) (c0 :: (ns' ++ LabelTreeDepthSuffix)) = none :=
      splitFirst_none_of (c := ' ') (by decide) hnosp
    have e5 : splitFirst (" in ".toList) (c0 :: (ns' ++ LabelTreeDepthSuffix)) = none :=
      splitFirst_none_of (c := ' ') (by decide) hnosp
    unfold parseRequirement
    rw [htrim]
    simp only [List.cons_append]
    rw [if_neg hc0ne, e1, e2, e3, e4, e5]

/-- A negated depth requirement string parses as a key-does-not-exist
requirement. -/
theorem parseRequirement_negreq {ns : Str} (hne : ns ≠ [])
    (hc : ∀ c ∈ ns, c ∈ dnsLabelChars) :
    parseRequirement ('!' :: (ns ++ LabelTreeDepthSuffix)) =
      .ok (.doesNotExistOp (ns ++ LabelTreeDepthSuffix)) := by
  have hnosp : ∀ c ∈ ns ++ LabelTreeDepthSuffix, isSpaceChar c = false := by
    intro c hm
    rcases List.mem_append.mp hm with hm' | hm'
    · exact (dnsChar_props c (hc c hm')).1
    · exact (suffixChar_props c hm').1
  have htrim0 : trimSpace ('!' :: (ns ++ LabelTreeDepthSuffix)) =
      '!' :: (ns ++ LabelTreeDepthSuffix) := by
    apply trimSpace_eq_self
    intro c hm
    rcases List.mem_cons.mp hm with rfl | hm'
    · decide
    · exact hnosp c hm'
  have htrim : trimSpace (ns ++ LabelTreeDepthSuffix) = ns ++ LabelTreeDepthSuffix :=
    trimSpace_eq_self hnosp
  have hkeyne : ¬(ns ++ LabelTreeDepthSuffix = []) := by
    intro he
    rcases List.append_eq_nil.mp he with ⟨-, h2⟩
    exact absurd h2 (by decide)
  unfold parseRequirement
  rw [htrim0]
  simp only [reduceIte]
  rw [htrim, if_neg hkeyne]

/-- Leading blanks on requirement strings do not change the parse. -/
theorem mapM_map_space (xs : List Str) :
    (xs.map (fun x => ' ' :: x)).mapM parseRequirement = xs.mapM parseRequirement := by
  induction xs with
  | nil => rfl
  | cons a l ih =>
    rw [List.map_cons, List.mapM_cons, List.mapM_cons, parseRequirement_cons_space, ih]

/-- mapM over Except succeeds when every element maps successfully. -/
theorem mapM_ok_of_all {β : Type} (f : Str → Except Str β) :
    ∀ xs : List Str, (∀ x ∈ xs, ∃ y, f x = .ok y) → ∃ ys, xs.mapM f = .ok ys := by
  intro xs
  induction xs with
  | nil => exact fun _ => ⟨[], rfl⟩
  | cons a l ih =>
    intro h
    obtain ⟨y, hy⟩ := h a (List.mem_cons_self a l)
    obtain ⟨ys, hys⟩ := ih (fun x hx => h x (List.mem_cons_of_mem a hx))
    refine ⟨y :: ys, ?_⟩
    rw [List.mapM_cons, hy, hys]
    rfl

/-- Top-level comma split of the loop-built string: one part per requirement
string, the later parts carrying the blank of the separator. -/
theorem splitTopComma_join (r : Str) (rest : List Str)
    (h : ∀ x ∈ r :: rest, ∀ c ∈ x, c ≠ ',' ∧ c ≠ '(' ∧ c ≠ ')') :
    splitTopComma (joinCommaSpace (r :: rest)) =
      r :: rest.map (fun x => ' ' :: x) := by
  induction rest generalizing r with
  | nil =>
    have hr := h r (List.mem_cons_self r [])
    unfold splitTopComma
    rw [show joinCommaSpace [r] = r from rfl]
    rw [splitTopCommaAux_no_comma (fun c hc => (hr c hc).1) 0 []]
    simp
  | cons r1 rest' ih =>
    have hr := h r (List.mem_cons_self _ _)
    have hjoin : joinCommaSpace (r :: r1 :: rest') =
        r ++ ',' :: ' ' :: joinCommaSpace (r1 :: rest') := rfl
    unfold splitTopComma
    rw [hjoin]
    rw [splitTopCommaAux_append_comma hr [] (' ' :: joinCommaSpace (r1 :: rest'))]
    have hsp : splitTopCommaAux 0 [] (' ' :: joinCommaSpace (r1 :: rest')) =
        splitTopCommaAux 0 [' '] (joinCommaSpace (r1 :: rest')) := by
      simp [splitTopCommaAux]
    rw [hsp]
    rw [splitTopCommaAux_acc (joinCommaSpace (r1 :: rest')) 0 [' ']]
    have ihr := ih r1 (fun x hx => h x (List.mem_cons_of_mem r hx))
    unfold splitTopComma at ihr
    rw [ihr]
    simp

/-- Parsing the loop-built string parses each requirement string in order. -/
theorem parseToLabelSelector_join (r : Str) (rest : List Str)
    (hgood : ∀ x ∈ r :: rest, x ≠ [] ∧ ∀ c ∈ x,
      isSpaceChar c = false ∧ c ≠ ',' ∧ c ≠ '(' ∧ c ≠ ')') :
    parseToLabelSelector (joinCommaSpace (r :: rest)) =
      (r :: rest).mapM parseRequirement := by
  obtain ⟨hrne, hrch⟩ := hgood r (List.mem_cons_self r rest)
  cases hrr : r with
  | nil => exact absurd hrr hrne
  | cons c0 r' =>
    subst hrr
    have hc0 : isSpaceChar c0 = false := (hrch c0 (List.mem_cons_self c0 r')).1
    have hhead : ∃ tail, joinCommaSpace ((c0 :: r') :: rest) = c0 :: tail := by
      cases rest with
      | nil => exact ⟨r', rfl⟩
      | cons r1 rest' =>
        exact ⟨r' ++ ',' :: ' ' :: joinCommaSpace (r1 :: rest'), rfl⟩
    obtain ⟨tail, htail⟩ := hhead
    have htrimne : trimSpace (joinCommaSpace ((c0 :: r') :: rest)) ≠ [] := by
      rw [htail]
      exact trimSpace_ne_nil hc0
    unfold parseToLabelSelector
    rw [if_neg htrimne]
    rw [splitTopComma_join (c0 :: r') rest
      (fun x hx c hc => ((hgood x hx).2 c hc).2)]
    rw [List.mapM_cons, List.mapM_cons, mapM_map_space]

/-- Parsing the loop-built string of a mapped segment list. -/
theorem parseToLabelSelector_join_map (segs : List Str) (hne : segs ≠ [])
    (hgood : ∀ x ∈ segs.map (fun g => trimSpace g ++ LabelTreeDepthSuffix),
      x ≠ [] ∧ ∀ ch ∈ x, isSpaceChar ch = false ∧ ch ≠ ',' ∧ ch ≠ '(' ∧ ch ≠ ')') :
    parseToLabelSelector (joinCommaSpace
        (segs.map (fun g => trimSpace g ++ LabelTreeDepthSuffix))) =
      (segs.map (fun g => trimSpace g ++ LabelTreeDepthSuffix)).mapM parseRequirement := by
  cases segs with
  | nil => exact absurd rfl hne
  | cons s0 srest =>
    rw [List.map_cons]
    exact parseToLabelSelector_join _ _ (by simpa only [List.map_cons] using hgood)

/-- splitOnChar always produces at least one part. -/
theorem splitOnChar_ne_nil (sep : Char) (s : Str) : splitOnChar sep s ≠ [] := by
  cases s with
  | nil => simp [splitOnChar]
  | cons c rest =>
    simp only [splitOnChar]
    split_ifs
    · simp
    · cases splitOnChar sep rest <;> simp

/-- Decomposition of a segment accepted by the validator. -/
theorem validSeg_decomp {seg : Str} (h : validSegB seg = true) :
    ∃ c cs, trimSpace seg = c :: cs ∧
      IsDNS1123Label (if c = '!' then cs else c :: cs) = [] := by
  unfold validSegB at h
  cases htr : trimSpace seg with
  | nil =>
    rw [htr] at h
    exact absurd h (by decide)
  | cons c cs =>
    rw [htr] at h
    exact ⟨c, cs, rfl, of_decide_eq_true h⟩

/-- Characters of a valid trimmed segment: the optional negation marker or a
DNS-label character. -/
theorem validSeg_chars {c : Char} {cs : Str}
    (hdns : IsDNS1123Label (if c = '!' then cs else c :: cs) = []) :
    ∀ x ∈ c :: cs, x = '!' ∨ x ∈ dnsLabelChars := by
  by_cases hneg : c = '!'
  · subst hneg
    rw [if_pos rfl] at hdns
    have hp := regexOk_props (isDNS_nil_regexOk hdns)
    intro x hx
    rcases List.mem_cons.mp hx with rfl | hx'
    · exact Or.inl rfl
    · exact Or.inr (hp.2 x hx')
  · rw [if_neg hneg] at hdns
    have hp := regexOk_props (isDNS_nil_regexOk hdns)
    intro x hx
    exact Or.inr (hp.2 x hx)

/-- Valid trimmed segments contain no whitespace, comma or parenthesis. -/
theorem validSeg_char_facts {c : Char} {cs : Str}
    (hdns : IsDNS1123Label (if c = '!' then cs else c :: cs) = []) :
    ∀ x ∈ c :: cs, isSpaceChar x = false ∧ x ≠ ',' ∧ x ≠ '(' ∧ x ≠ ')' := by
  intro x hx
  rcases validSeg_chars hdns x hx with rfl | hd
  · exact ⟨by decide, by decide, by decide, by decide⟩
  · obtain ⟨a1, a2, a3, a4, -, -⟩ := dnsChar_props x hd
    exact ⟨a1, a2, a3, a4⟩

/-- Every valid segment yields a clean requirement string that parses. -/
theorem validSeg_req {seg : Str} (h : validSegB seg = true) :
    (trimSpace seg ++ LabelTreeDepthSuffix ≠ [] ∧
      ∀ x ∈ trimSpace seg ++ LabelTreeDepthSuffix,
        isSpaceChar x = false ∧ x ≠ ',' ∧ x ≠ '(' ∧ x ≠ ')') ∧
    (∃ req, parseRequirement (trimSpace seg ++ LabelTreeDepthSuffix) = .ok req) := by
  obtain ⟨c, cs, htr, hdns⟩ := validSeg_decomp h
  rw [htr]
  constructor
  · constructor
    · simp
    · intro x hx
      rcases List.mem_append.mp hx with hm | hm
      · exact validSeg_char_facts hdns x hm
      · obtain ⟨a1, a2, a3, a4, -⟩ := suffixChar_props x hm
        exact ⟨a1, a2, a3, a4⟩
  · by_cases hneg : c = '!'
    · subst hneg
      rw [if_pos rfl] at hdns
      have hp := regexOk_props (isDNS_nil_regexOk hdns)
      exact ⟨.doesNotExistOp (cs ++ LabelTreeDepthSuffix),
        parseRequirement_negreq hp.1 hp.2⟩
    · rw [if_neg hneg] at hdns
      have hp := regexOk_props (isDNS_nil_regexOk hdns)
      exact ⟨.existsOp ((c :: cs) ++ LabelTreeDepthSuffix),
        parseRequirement_existsreq hp.1 hp.2⟩

/-- A valid trimmed segment passes the source validator without a panic. -/
theorem validate_ok {c : Char} {cs : Str}
    (htr2 : trimSpace (c :: cs) = c :: cs)
    (hdns : IsDNS1123Label (if c = '!' then cs else c :: cs) = []) :
    validateTreeSelectorSegment (c :: cs) = .ok none := by
  unfold validateTreeSelectorSegment
  rw [htr2]
  simp only [hdns]

/-- One-step unfolding of the GetTreeSelector loop. -/
theorem treeSegsLoop_cons (seg0 : Str) (rest : List Str) :
    treeSegsLoop (seg0 :: rest) =
      match validateTreeSelectorSegment (trimSpace seg0) with
      | .panics m => .panics m
      | .ok (some e) => .ok (.error e)
      | .ok none =>
        match trimSpace seg0 with
        | [] => .panics ("runtime error: index out of range".toList)
        | c :: cs =>
          match treeSegsLoop rest with
          | .panics m => .panics m
          | .ok (.error e) => .ok (.error e)
          | .ok (.ok (s, nns)) =>
            .ok (.ok ((c :: cs) ++ LabelTreeDepthSuffix ++
              (if rest = [] then [] else (", ".toList)) ++ s,
              (if c = '!' then [] else [c :: cs]) ++ nns)) := rfl

/-- The GetTreeSelector loop on valid segments: no panic, no error, the
comma-space join of the rewritten requirement strings and the non-negated
trimmed names. -/
theorem treeSegsLoop_ok : ∀ (segs : List Str),
    (∀ seg ∈ segs, validSegB seg = true) →
    treeSegsLoop segs = .ok (.ok
      (joinCommaSpace (segs.map (fun g => trimSpace g ++ LabelTreeDepthSuffix)),
       nonNegOf segs)) := by
  intro segs
  induction segs with
  | nil => intro _; rfl
  | cons seg rest ih =>
    intro h
    obtain ⟨c, cs, htr, hdns⟩ := validSeg_decomp (h seg (List.mem_cons_self seg rest))
    have hchars := validSeg_char_facts hdns
    have htr2 : trimSpace (c :: cs) = c :: cs :=
      trimSpace_eq_self (fun x hx => (hchars x hx).1)
    have hval : validateTreeSelectorSegment (trimSpace seg) = .ok none := by
      rw [htr]
      exact validate_ok htr2 hdns
    have ih' := ih (fun x hx => h x (List.mem_cons_of_mem seg hx))
    have hnn : nonNegOf (seg :: rest) =
        (if c = '!' then [] else [c :: cs]) ++ nonNegOf rest := by
      unfold nonNegOf
      simp only [List.map_cons, htr, List.filter_cons]
      by_cases hneg : c = '!'
      · subst hneg
        simp
      · simp [hneg]
    rw [treeSegsLoop_cons seg rest]
    cases rest with
    | nil =>
      simp only [hval, htr, ih']
      simp [joinCommaSpace, hnn, htr, validate_ok htr2 hdns,
        show nonNegOf [] = [] from rfl]
    | cons r1 rest' =>
      simp only [hval, htr, ih']
      simp [joinCommaSpace, hnn, htr, validate_ok htr2 hdns,
        show (", ".toList) = [',', ' '] from rfl]

/-- A non-negated trimmed singleton segment is collected as non-negated. -/
theorem nonNegOf_single_pos {c : Char} {cs : Str} (htrim : trimSpace (c :: cs) = c :: cs)
    (hc : c ≠ '!') : nonNegOf [c :: cs] = [c :: cs] := by
  unfold nonNegOf
  simp [htrim, hc]

/-- A negated trimmed singleton segment is not collected as non-negated. -/
theorem nonNegOf_single_neg {cs : Str} (htrim : trimSpace ('!' :: cs) = '!' :: cs) :
    nonNegOf [('!' :: cs)] = [] := by
  unfold nonNegOf
  simp [htrim]

/-- A trimmed valid name whose head is not the negation marker passes the
segment check. -/
theorem validSegB_pos {foo : Str} (hdns : IsDNS1123Label foo = [])
    (htrim : trimSpace foo = foo) (hne : foo ≠ [])
    (hhead : ∀ c ∈ foo, c ≠ '!') : validSegB foo = true := by
  cases foo with
  | nil => exact absurd rfl hne
  | cons c cs =>
    unfold validSegB
    rw [htrim]
    simp [hhead c (List.mem_cons_self c cs), hdns]

/-- A negation marker followed by a trimmed valid name passes the segment
check. -/
theorem validSegB_neg {foo : Str} (hdns : IsDNS1123Label foo = [])
    (htrim : trimSpace ('!' :: foo) = '!' :: foo) : validSegB ('!' :: foo) = true := by
  unfold validSegB
  rw [htrim]
  simp [hdns]

/-- GetTreeSelector on a single valid comma-free segment: the parsed
requirement is returned as the selector with no error. -/
theorem getTreeSelector_single {inst : Unstructured} {seg : Str} {req : Requirement}
    (hann : GetTreeSelectorAnnot inst = seg)
    (hne : seg ≠ [])
    (hnocomma : ∀ c ∈ seg, c ≠ ',')
    (hvalid : validSegB seg = true)
    (htrim : trimSpace seg = seg)
    (hreq : parseRequirement (seg ++ LabelTreeDepthSuffix) = .ok req)
    (hnn : ¬ 1 < (nonNegOf [seg]).length) :
    GetTreeSelector inst = .ok (some [req], none) := by
  unfold GetTreeSelector
  rw [hann]
  rw [if_neg hne]
  rw [splitOnChar_no_sep hnocomma]
  have hloop := treeSegsLoop_ok [seg] (by
    intro x hx
    rw [List.mem_singleton.mp hx]
    exact hvalid)
  have hsel : getSelectorFromString (joinCommaSpace
      ([seg].map (fun g => trimSpace g ++ LabelTreeDepthSuffix))) = .ok [req] := by
    unfold getSelectorFromString
    rw [parseToLabelSelector_join_map [seg] (by simp) ?good]
    · simp only [List.map_cons, List.map_nil, htrim]
      rw [List.mapM_cons, hreq]
      rfl
    case good =>
      intro x hx
      simp only [List.map_cons, List.map_nil, List.mem_singleton] at hx
      subst hx
      exact (validSeg_req hvalid).1
  simp only [hloop, hsel]
  rw [if_neg hnn]

/-- C4: a tree-selector annotation whose trimmed comma-separated segments all
pass namespace validation but which contains more than one non-negated
segment is rejected: GetTreeSelector returns no selector and an error listing
exactly the non-negated trimmed names. -/
theorem getTreeSelector_multi_nonnegated (inst : Unstructured)
    (hval : ∀ seg ∈ splitOnChar ',' (GetTreeSelectorAnnot inst), validSegB seg = true)
    (hcount : 1 < (nonNegOf (splitOnChar ',' (GetTreeSelectorAnnot inst))).length) :
    GetTreeSelector inst = .ok (none, some (.multipleNonNegated
      (nonNegOf (splitOnChar ',' (GetTreeSelectorAnnot inst))))) := by
  cases hann : GetTreeSelectorAnnot inst with
  | nil =>
    exfalso
    rw [hann] at hval
    have h0 := hval [] (by simp [splitOnChar])
    exact absurd h0 (by decide)
  | cons a0 arest =>
    rw [hann] at hval hcount
    unfold GetTreeSelector
    rw [hann]
    rw [if_neg (by simp)]
    have hgood : ∀ x ∈ (splitOnChar ',' (a0 :: arest)).map
        (fun g => trimSpace g ++ LabelTreeDepthSuffix),
        x ≠ [] ∧ ∀ ch ∈ x, isSpaceChar ch = false ∧ ch ≠ ',' ∧ ch ≠ '(' ∧ ch ≠ ')' := by
      intro x hx
      obtain ⟨g, hg, rfl⟩ := List.mem_map.mp hx
      exact (validSeg_req (hval g hg)).1
    have hex : ∀ x ∈ (splitOnChar ',' (a0 :: arest)).map
        (fun g => trimSpace g ++ LabelTreeDepthSuffix),
        ∃ req, parseRequirement x = .ok req := by
      intro x hx
      obtain ⟨g, hg, rfl⟩ := List.mem_map.mp hx
      exact (validSeg_req (hval g hg)).2
    obtain ⟨ys, hys⟩ := mapM_ok_of_all parseRequirement _ hex
    have hsel : getSelectorFromString (joinCommaSpace
        ((splitOnChar ',' (a0 :: arest)).map
          (fun g => trimSpace g ++ LabelTreeDepthSuffix))) = .ok ys := by
      unfold getSelectorFromString
      rw [parseToLabelSelector_join_map _ (splitOnChar_ne_nil ',' (a0 :: arest)) hgood]
      exact hys
    simp only [treeSegsLoop_ok _ hval, hsel]
    rw [if_pos hcount]

/-- C4 witness: the annotation team-a,team-b has two non-negated names and is
rejected with an error listing both. -/
theorem getTreeSelector_multi_nonnegated_witness :
    GetTreeSelector ⟨[], [], [], [], [(AnnotationTreeSelector, ("team-a,team-b".toList))]⟩ =
      .ok (none, some (.multipleNonNegated [("team-a".toList), ("team-b".toList)])) := by
  have h := getTreeSelector_multi_nonnegated
    ⟨[], [], [], [], [(AnnotationTreeSelector, ("team-a,team-b".toList))]⟩
    (by decide) (by decide)
  rw [h]
  rfl

/-- C6: a valid single-name tree selector has depth-label-existence
semantics: the segment foo yields exactly the requirement that the label
foo plus the depth suffix exists, matching a namespace label set exactly when
that key is present; and the segment !foo yields exactly the requirement that
the suffixed key does not exist, matching exactly when that key is absent. -/
theorem getTreeSelector_depth_semantics (inst : Unstructured) (nsLabels : LabelSet)
    (foo : Str) (hdns : IsDNS1123Label foo = []) :
    (GetTreeSelectorAnnot inst = foo →
      GetTreeSelector inst =
        .ok (some [.existsOp (foo ++ LabelTreeDepthSuffix)], none) ∧
      (selMatches [.existsOp (foo ++ LabelTreeDepthSuffix)] nsLabels = true ↔
        (lookupAL nsLabels (foo ++ LabelTreeDepthSuffix)).isSome = true)) ∧
    (GetTreeSelectorAnnot inst = '!' :: foo →
      GetTreeSelector inst =
        .ok (some [.doesNotExistOp (foo ++ LabelTreeDepthSuffix)], none) ∧
      (selMatches [.doesNotExistOp (foo ++ LabelTreeDepthSuffix)] nsLabels = true ↔
        lookupAL nsLabels (foo ++ LabelTreeDepthSuffix) = none)) := by
  obtain ⟨hfne, hfchars⟩ := regexOk_props (isDNS_nil_regexOk hdns)
  have hfacts : ∀ c ∈ foo,
      isSpaceChar c = false ∧ c ≠ ',' ∧ c ≠ '(' ∧ c ≠ ')' ∧ c ≠ '=' ∧ c ≠ '!' :=
    fun c hc => dnsChar_props c (hfchars c hc)
  have htrim : trimSpace foo = foo := trimSpace_eq_self (fun c hc => (hfacts c hc).1)
  obtain ⟨f0, foo', rfl⟩ : ∃ f0 foo', foo = f0 :: foo' := by
    cases foo with
    | nil => exact absurd rfl hfne
    | cons a b => exact ⟨a, b, rfl⟩
  have htrimneg : trimSpace ('!' :: f0 :: foo') = '!' :: f0 :: foo' := by
    apply trimSpace_eq_self
    intro c hc
    rcases List.mem_cons.mp hc with rfl | hc'
    · decide
    · exact (hfacts c hc').1
  constructor
  · intro hann
    refine ⟨getTreeSelector_single hann hfne
      (fun c hc => (hfacts c hc).2.1)
      (validSegB_pos hdns htrim hfne (fun c hc => (hfacts c hc).2.2.2.2.2))
      htrim
      (parseRequirement_existsreq hfne hfchars)
      ?_, ?_⟩
    · rw [nonNegOf_single_pos htrim (hfacts f0 (List.mem_cons_self f0 foo')).2.2.2.2.2]
      simp
    · simp [selMatches, reqMatches]
  · intro hann
    refine ⟨getTreeSelector_single hann (by simp)
      (fun c hc => by
        rcases List.mem_cons.mp hc with rfl | hc'
        · decide
        · exact (hfacts c hc').2.1)
      (validSegB_neg hdns htrimneg)
      htrimneg
      (parseRequirement_negreq hfne hfchars)
      ?_, ?_⟩
    · rw [nonNegOf_single_neg htrimneg]
      simp
    · simp [selMatches, reqMatches, Option.isNone_iff_eq_none]

/-- C6 witness: the tree selector !team-a yields the does-not-exist
requirement on the suffixed depth key and matches the empty label set. -/
theorem getTreeSelector_depth_semantics_witness :
    GetTreeSelector ⟨[], [], [], [], [(AnnotationTreeSelector, ("!team-a".toList))]⟩ =
      .ok (some [.doesNotExistOp (("team-a".toList) ++ LabelTreeDepthSuffix)], none) ∧
    selMatches [.doesNotExistOp (("team-a".toList) ++ LabelTreeDepthSuffix)] [] = true := by
  have h := (getTreeSelector_depth_semantics
    ⟨[], [], [], [], [(AnnotationTreeSelector, ("!team-a".toList))]⟩ []
    ("team-a".toList) (by decide)).2 rfl
  exact ⟨h.1, h.2.mpr rfl⟩
